import Mathlib

/-!
# Verification of the fuzzy archive matcher

Shallow embedding of `ArchiveSearchAgent.plan`
(`src/blackhole_core/agents/archive_search_agent.py`).

`plan(query)` scans a CSV dataset row by row, scores the query against each
non-empty cell with two fuzzy-similarity functions from the external
`rapidfuzz` library, and collects each row's first threshold-clearing field
as a match entry, deduplicating rows by their `title` value.

Modelling choices:
* A dataset row is an ordered association list of column name to cell value
  (`Record`).  `pandas` mangles duplicate CSV column names, so rows of
  interest have pairwise-distinct keys, but the embedding does not assume it.
* Cell values (`PyVal`) are strings, numbers (`ℚ`, standing in for Python
  floats; no claim depends on float rounding) or `na` (pandas `NaN`).
* The two `rapidfuzz` scoring functions are external library code, not part
  of this repository; following spec section 9 ("abstract to a pluggable
  string-similarity function pair returning [0,100]") the embedding is
  parameterised by the two scorers, and concrete evaluations instantiate
  them with spec-modelled scorers defined below.
* The Python exception raised by `row['title']` (a `KeyError` when a row
  lacks a `title` column) is modelled with `Except`.
* `datetime.now(...)` and `self.archive_path` are inputs of the embedding
  (`timestamp`, `srcFile`): the rest of `plan` is a pure function of them.
-/

/-- A cell value as produced by `pd.read_csv`: a string, a number, or NaN. -/
inductive PyVal where
  | str (s : String)
  | num (q : ℚ)
  | na
deriving DecidableEq, Repr

/-- One dataset row: ordered mapping from column name to cell value. -/
abbrev Record := List (String × PyVal)

/-- Python `str.lower()` (modulo full Unicode case folding, irrelevant here). -/
def pyLower (s : String) : String :=
  ⟨s.data.map Char.toLower⟩

/-- Python `str.strip()`: drop leading and trailing whitespace. -/
def pyStrip (s : String) : String :=
  ⟨((s.data.dropWhile Char.isWhitespace).reverse.dropWhile
      Char.isWhitespace).reverse⟩

/-- Python `str(value)` on a cell.  Numeric cells render via `ℚ`'s
`toString`; no claim depends on the exact numeral text. -/
def pyStr : PyVal → String
  | .str s => s
  | .num q => toString q
  | .na => "nan"

/-- `pd.isna(value)`. -/
def PyVal.isNa : PyVal → Bool
  | .na => true
  | _ => false

/-- Line 37 of the source: `if pd.isna(value) or str(value).strip() == ""`. -/
def skipCell (v : PyVal) : Bool :=
  v.isNa || pyStrip (pyStr v) == ""

/-- Python `==` between two cell values: `NaN` compares unequal to
everything (including itself), and values of different types are unequal. -/
def pyEq : PyVal → PyVal → Bool
  | .str a, .str b => a == b
  | .num a, .num b => a == b
  | _, _ => false

/-- Python `==` where the left side is `m.get('title')`, which may be
`None`; `None` is never equal to a cell value. -/
def pyEqO : Option PyVal → PyVal → Bool
  | some a, b => pyEq a b
  | none, _ => false

/-- Insert a key into a Python dict (modelled as an assoc list in insertion
order): an existing key keeps its position and gets the new value, a new
key is appended. -/
def dictInsert (d : List (String × PyVal)) (k : String) (v : PyVal) :
    List (String × PyVal) :=
  if d.any (fun p => p.1 = k) then
    d.map (fun p => if p.1 = k then (k, v) else p)
  else
    d ++ [(k, v)]

/-- The dict built from a `**`-splat of key/value pairs: later pairs
overwrite the value of earlier equal keys. -/
def dictOfPairs (ps : List (String × PyVal)) : List (String × PyVal) :=
  ps.foldl (fun d p => dictInsert d p.1 p.2) []

/-- The value a key ends up with after splatting `ps` into a dict:
the last binding wins. -/
def lastVal (k : String) (ps : List (String × PyVal)) : Option PyVal :=
  ps.foldl (fun acc p => if p.1 = k then some p.2 else acc) none

/-- Lines 53-58 of the source: the match entry dict
`{"match_score": similarity, "matched_on": col, "matched_value": value,
**row.to_dict()}`.  Row fields splatted after the three fixed keys
overwrite their values. -/
def mkEntry (score : ℕ) (col : String) (value : PyVal) (row : Record) :
    List (String × PyVal) :=
  dictOfPairs
    ([("match_score", PyVal.num (score : ℚ)), ("matched_on", PyVal.str col),
      ("matched_value", value)] ++ row)

/-- A pluggable string-similarity function returning a score in [0,100]
(spec section 9: the concrete `rapidfuzz` functions are external library
code and are abstracted to this interface; spec section 8 allows the
similarity functions to be integer-valued, which is what the embedding
uses — no claim depends on fractional scores). -/
abbrev Scorer := String → String → ℕ

/-- Lines 41-49 of the source: lowercase the cell, score it with both
scorers against the lowercased query, and take the maximum. -/
def fieldSim (tsr prr : Scorer) (docLower : String) (v : PyVal) : ℕ :=
  max (tsr docLower (pyLower (pyStr v))) (prr docLower (pyLower (pyStr v)))

/-- The inner loop of lines 35-63: walk the row's fields in order, skip
empty cells, and stop at the first field whose similarity clears the
threshold, returning that field's name, raw value and score. -/
def firstClear (tsr prr : Scorer) (docLower : String) (th : ℕ) :
    Record → Option (String × PyVal × ℕ)
  | [] => none
  | (col, v) :: rest =>
    if skipCell v then
      firstClear tsr prr docLower th rest
    else
      let s := fieldSim tsr prr docLower v
      if th ≤ s then some (col, v, s) else firstClear tsr prr docLower th rest

/-- The match entry a row would contribute, if any: its first
threshold-clearing field packaged by `mkEntry`. -/
def rowEntry (tsr prr : Scorer) (docLower : String) (th : ℕ) (row : Record) :
    Option (List (String × PyVal)) :=
  (firstClear tsr prr docLower th row).map
    (fun p => mkEntry p.2.2 p.1 p.2.1 row)

/-- The one exception `plan` can raise: `row['title']` on a row without a
`title` column (line 61 of the source). -/
inductive PyErr where
  | keyErrorTitle
deriving DecidableEq, Repr

/-- Line 61 of the source:
`any(m.get('title') == row['title'] for m in matches)`.
Over an empty `matches` the generator never runs, so `row['title']` is not
evaluated; otherwise a missing `title` raises `KeyError`. -/
def dupCheck (ms : List (List (String × PyVal))) (row : Record) :
    Except PyErr Bool :=
  match ms with
  | [] => .ok false
  | _ =>
    match List.lookup "title" row with
    | none => .error .keyErrorTitle
    | some t => .ok (ms.any (fun m => pyEqO (List.lookup "title" m) t))

/-- The outer loop of lines 33-63: fold over the rows, appending each
row's first-clearing entry unless a previous entry has an equal `title`. -/
def scanRows (tsr prr : Scorer) (docLower : String) (th : ℕ)
    (ms : List (List (String × PyVal))) :
    List Record → Except PyErr (List (List (String × PyVal)))
  | [] => .ok ms
  | row :: rest =>
    match firstClear tsr prr docLower th row with
    | none => scanRows tsr prr docLower th ms rest
    | some (col, v, s) =>
      let entry := mkEntry s col v row
      match dupCheck ms row with
      | .error e => .error e
      | .ok dup =>
        scanRows tsr prr docLower th (if dup then ms else ms ++ [entry]) rest

/-- Line 68 of the source: `matches if matches else "No matches found."`. -/
inductive PlanOutput where
  | matches (l : List (List (String × PyVal)))
  | noMatches
deriving DecidableEq, Repr

/-- Lines 65-71 of the source: the result dict of a successful scan. -/
structure Report where
  agent : String
  input : String
  output : PlanOutput
  timestamp : String
  sourceFile : String
deriving DecidableEq, Repr

/-- A normal return of `plan`: either the early error dict of line 26
(`{"error": "No document_text provided."}`) or the full result dict. -/
inductive PlanOut where
  | errorReport (msg : String)
  | report (r : Report)
deriving DecidableEq, Repr

/-- Lines 22-72 of the source: `ArchiveSearchAgent.plan`.  `q` is
`query.get('document_text', "")`; `rows` is the loaded CSV (`pd.read_csv`
is the dataset-load step, abstracted to an input); `th` is the threshold
(hardcoded to 60 at line 31, exposed as the parameter the spec's `match`
contract names); `timestamp` and `srcFile` stand for `datetime.now(...)`
and `self.archive_path`. -/
def plan (tsr prr : Scorer) (timestamp srcFile : String) (q : String)
    (rows : List Record) (th : ℕ) : Except PyErr PlanOut :=
  if q = "" then
    .ok (.errorReport "No document_text provided.")
  else
    match scanRows tsr prr (pyLower q) th [] rows with
    | .error e => .error e
    | .ok ms =>
      .ok (.report
        { agent := "ArchiveSearchAgent"
          input := q
          output := if ms.isEmpty then .noMatches else .matches ms
          timestamp := timestamp
          sourceFile := srcFile })

/-- The match entries of a `plan` result (empty on errors and on the
"No matches found." marker). -/
def matchesOfPlan : Except PyErr PlanOut → List (List (String × PyVal))
  | .ok (.report r) =>
    match r.output with
    | .matches l => l
    | .noMatches => []
  | _ => []

/-- The `title` values of the match entries of a `plan` result. -/
def titlesOfPlan (x : Except PyErr PlanOut) : List PyVal :=
  (matchesOfPlan x).filterMap (fun m => List.lookup "title" m)

/-- The list of match entries behind an output value (`[]` for the
"No matches found." marker). -/
def outputMatches : PlanOutput → List (List (String × PyVal))
  | .matches l => l
  | .noMatches => []

/-- Replace a report's `input` field with `""`, leaving the rest alone:
projects a `plan` result onto everything that does not echo the raw query. -/
def PlanOut.stripInput : PlanOut → PlanOut
  | .errorReport m => .errorReport m
  | .report r => .report { r with input := "" }

/-- Replace a report's `timestamp` field, leaving the rest alone. -/
def PlanOut.withTimestamp (ts : String) : PlanOut → PlanOut
  | .errorReport m => .errorReport m
  | .report r => .report { r with timestamp := ts }

/-- Python `str.split()`: cut a character list into maximal runs of
non-whitespace characters (`acc` holds the current word reversed). -/
def wordsAux : List Char → List Char → List String
  | [], acc => if acc = [] then [] else [⟨acc.reverse⟩]
  | c :: rest, acc =>
    if c.isWhitespace then
      if acc = [] then wordsAux rest []
      else ⟨acc.reverse⟩ :: wordsAux rest []
    else wordsAux rest (c :: acc)

/-- Keep the first occurrence of each word. -/
def dedupKeepFirst (seen : List String) : List String → List String
  | [] => []
  | x :: xs =>
    if seen.contains x then dedupKeepFirst seen xs
    else x :: dedupKeepFirst (x :: seen) xs

/-- The set of words of a string, as a duplicate-free list. -/
def wordSet (s : String) : List String :=
  dedupKeepFirst [] (wordsAux s.data [])

/-- Equality of two duplicate-free lists as sets. -/
def setEqB (xs ys : List String) : Bool :=
  xs.all (fun x => ys.contains x) && ys.all (fun y => xs.contains y)

/-- Modelled from the spec: the token-set similarity of section 4
("order-independent comparison of the set of words in each string").  The
concrete `fuzz.token_set_ratio` lives in the external `rapidfuzz` library,
not in this repository; per section 9 any [0,100]-valued token-set
similarity may stand in for it.  This model returns 100 on equal word sets
and otherwise the Sørensen-Dice overlap of the two word sets, scaled to
[0,100]. -/
def modelTokenSet (a b : String) : ℕ :=
  let ta := wordSet a
  let tb := wordSet b
  if setEqB ta tb then 100
  else (200 * (ta.filter (fun w => tb.contains w)).length) /
    (ta.length + tb.length)

/-- Is `needle` a contiguous infix of `hay`? -/
def isSubList (needle hay : List Char) : Bool :=
  (List.range (hay.length + 1)).any (fun i => needle.isPrefixOf (hay.drop i))

/-- Modelled from the spec: the partial/substring similarity of section 4
("best-alignment comparison that rewards the query being a substring or
near-substring of the field, and vice versa").  The concrete
`fuzz.partial_ratio` lives in the external `rapidfuzz` library, not in
this repository; per section 9 any [0,100]-valued substring similarity may
stand in for it.  This model returns 100 when either string contains the
other and 0 otherwise. -/
def modelPart (a b : String) : ℕ :=
  if isSubList a.data b.data || isSubList b.data a.data then 100 else 0

/-- Does the row avoid the three annotation keys of `mkEntry`? -/
def cleanKeys (row : Record) : Bool :=
  row.all (fun p =>
    p.1 != "match_score" && p.1 != "matched_on" && p.1 != "matched_value")

/-- Do two rows carry `title` values that Python's `==` calls equal? -/
def titleClash (r r' : Record) : Bool :=
  match List.lookup "title" r, List.lookup "title" r' with
  | some a, some b => pyEq a b
  | _, _ => false

/-- Pairwise absence of `title` clashes along a list of rows. -/
def noTitleClashes : List Record → Bool
  | [] => true
  | r :: rest => rest.all (fun r' => !titleClash r r') && noTitleClashes rest

/-- The hypotheses under which the dedup logic of line 61 is inert: every
row has a `title` column, row keys are unique (as `pandas` guarantees for
a CSV), and no two rows have `title` values Python calls equal. -/
def rowsOK (rows : List Record) : Bool :=
  rows.all (fun r => (List.lookup "title" r).isSome) &&
    rows.all (fun r => (r.map Prod.fst).dedup.length = (r.map Prod.fst).length) &&
    noTitleClashes rows

/-- Is every member of `xs` a member of `ys`?  (Set inclusion of the two
match-entry lists.) -/
def listSubsetB (xs ys : List (List (String × PyVal))) : Bool :=
  xs.all (fun x => ys.contains x)

deriving instance DecidableEq for Except

/-! ## Dictionary semantics -/

theorem lookup_cons' (k a : String) (b : PyVal)
    (rest : List (String × PyVal)) :
    List.lookup k ((a, b) :: rest) =
      if k = a then some b else List.lookup k rest := by
  by_cases h : k = a
  · subst h
    simp [List.lookup]
  · simp [List.lookup, beq_false_of_ne h, h]

theorem lookup_of_any_false (d : List (String × PyVal)) (k : String)
    (h : d.any (fun p => p.1 = k) = false) : List.lookup k d = none := by
  induction d with
  | nil => rfl
  | cons p rest ih =>
    obtain ⟨a, b⟩ := p
    simp only [List.any_cons, Bool.or_eq_false_iff] at h
    obtain ⟨h1, h2⟩ := h
    have hak : k ≠ a := by
      intro hk
      subst hk
      simp at h1
    rw [lookup_cons', if_neg hak]
    exact ih h2

theorem lookup_of_any_true (d : List (String × PyVal)) (k : String)
    (h : d.any (fun p => p.1 = k) = true) : ∃ b, List.lookup k d = some b := by
  induction d with
  | nil => simp at h
  | cons p rest ih =>
    obtain ⟨a, b⟩ := p
    by_cases hak : k = a
    · subst hak
      exact ⟨b, by rw [lookup_cons', if_pos rfl]⟩
    · simp only [List.any_cons, Bool.or_eq_true, decide_eq_true_eq] at h
      have h2 : rest.any (fun p => p.1 = k) = true := by
        rcases h with h | h
        · exact absurd h.symm hak
        · exact h
      obtain ⟨w, hw⟩ := ih h2
      exact ⟨w, by rw [lookup_cons', if_neg hak]; exact hw⟩

theorem lookup_map_update (d : List (String × PyVal)) (k k' : String)
    (v : PyVal) :
    List.lookup k (d.map (fun p => if p.1 = k' then (k', v) else p)) =
      if k = k' then (List.lookup k d).map (fun _ => v)
      else List.lookup k d := by
  induction d with
  | nil => by_cases h : k = k' <;> simp [List.lookup, h]
  | cons p rest ih =>
    obtain ⟨a, b⟩ := p
    by_cases hak' : a = k'
    · by_cases hk : k = a
      · subst hak'
        subst hk
        simp [lookup_cons', ih]
      · subst hak'
        simp [lookup_cons', hk, ih]
    · by_cases hk : k = a
      · subst hk
        have hkk' : k ≠ k' := hak'
        simp [lookup_cons', hkk', ih]
      · simp [lookup_cons', hak', hk, ih]

theorem lookup_append_or (k : String) (xs ys : List (String × PyVal)) :
    List.lookup k (xs ++ ys) = (List.lookup k xs).or (List.lookup k ys) := by
  induction xs with
  | nil => simp [List.lookup]
  | cons p rest ih =>
    obtain ⟨a, b⟩ := p
    by_cases hk : k = a
    · subst hk
      simp [lookup_cons']
    · simp [lookup_cons', hk, ih]

theorem lookup_dictInsert (d : List (String × PyVal)) (k k' : String)
    (v : PyVal) :
    List.lookup k (dictInsert d k' v) =
      if k = k' then some v else List.lookup k d := by
  unfold dictInsert
  by_cases hany : d.any (fun p => p.1 = k') = true
  · rw [if_pos (by exact_mod_cast hany), lookup_map_update]
    by_cases hk : k = k'
    · subst hk
      obtain ⟨b, hb⟩ := lookup_of_any_true d k hany
      simp [hb]
    · simp [hk]
  · have hf : d.any (fun p => p.1 = k') = false := by
      revert hany
      cases d.any (fun p => p.1 = k') <;> simp
    rw [if_neg (by simp [hf]), lookup_append_or]
    by_cases hk : k = k'
    · subst hk
      rw [lookup_of_any_false d k hf, lookup_cons', if_pos rfl]
      simp [Option.or]
    · rw [lookup_cons', if_neg hk]
      simp [hk]

theorem lastVal_foldl (k : String) (ps : List (String × PyVal)) :
    ∀ acc : Option PyVal,
      ps.foldl (fun a p => if p.1 = k then some p.2 else a) acc =
        (lastVal k ps).or acc := by
  induction ps with
  | nil => intro acc; simp [lastVal, Option.or]
  | cons p rest ih =>
    intro acc
    obtain ⟨a, b⟩ := p
    simp only [List.foldl_cons]
    rw [ih (if (a, b).1 = k then some (a, b).2 else acc)]
    have hunf : lastVal k ((a, b) :: rest) =
        rest.foldl (fun x p => if p.1 = k then some p.2 else x)
          (if (a, b).1 = k then some (a, b).2 else none) := rfl
    rw [hunf, ih (if (a, b).1 = k then some (a, b).2 else none)]
    by_cases hak : a = k
    · simp only [if_pos hak]
      cases lastVal k rest <;> simp [Option.or]
    · simp only [if_neg hak]
      cases lastVal k rest <;> simp [Option.or]

theorem lastVal_cons (k a : String) (b : PyVal)
    (rest : List (String × PyVal)) :
    lastVal k ((a, b) :: rest) =
      (lastVal k rest).or (if a = k then some b else none) := by
  have hunf : lastVal k ((a, b) :: rest) =
      rest.foldl (fun x p => if p.1 = k then some p.2 else x)
        (if (a, b).1 = k then some (a, b).2 else none) := rfl
  rw [hunf, lastVal_foldl]

theorem lookup_foldl_dictInsert (k : String) (ps : List (String × PyVal)) :
    ∀ d : List (String × PyVal),
      List.lookup k (ps.foldl (fun d p => dictInsert d p.1 p.2) d) =
        (lastVal k ps).or (List.lookup k d) := by
  induction ps with
  | nil => intro d; simp [lastVal, Option.or]
  | cons p rest ih =>
    intro d
    obtain ⟨a, b⟩ := p
    simp only [List.foldl_cons]
    rw [ih (dictInsert d a b), lookup_dictInsert, lastVal_cons]
    by_cases hk : k = a
    · subst hk
      rw [if_pos rfl, if_pos rfl]
      cases lastVal k rest <;> simp [Option.or]
    · rw [if_neg hk, if_neg (fun h => hk h.symm)]
      cases lastVal k rest <;> simp [Option.or]

theorem lookup_dictOfPairs (k : String) (ps : List (String × PyVal)) :
    List.lookup k (dictOfPairs ps) = lastVal k ps := by
  unfold dictOfPairs
  rw [lookup_foldl_dictInsert]
  cases lastVal k ps <;> simp [List.lookup, Option.or]

theorem lastVal_append (k : String) (xs ys : List (String × PyVal)) :
    lastVal k (xs ++ ys) = (lastVal k ys).or (lastVal k xs) := by
  have hunf : lastVal k (xs ++ ys) =
      (xs ++ ys).foldl (fun x p => if p.1 = k then some p.2 else x) none := rfl
  rw [hunf, List.foldl_append, lastVal_foldl]
  rfl

theorem lastVal_of_keys_ne (k : String) (ps : List (String × PyVal))
    (h : ∀ p ∈ ps, p.1 ≠ k) : lastVal k ps = none := by
  induction ps with
  | nil => rfl
  | cons p rest ih =>
    obtain ⟨a, b⟩ := p
    rw [lastVal_cons, if_neg (h (a, b) (by simp)),
      ih (fun q hq => h q (by simp [hq]))]
    rfl

theorem lastVal_of_nodup (k : String) (row : Record)
    (h : (row.map Prod.fst).Nodup) : lastVal k row = List.lookup k row := by
  induction row with
  | nil => rfl
  | cons p rest ih =>
    obtain ⟨a, b⟩ := p
    simp only [List.map_cons, List.nodup_cons] at h
    obtain ⟨ha, hrest⟩ := h
    by_cases hak : a = k
    · subst hak
      rw [lastVal_cons, if_pos rfl, lookup_cons', if_pos rfl]
      have hnone : lastVal a rest = none := by
        apply lastVal_of_keys_ne
        intro q hq hqa
        exact ha (hqa ▸ List.mem_map_of_mem Prod.fst hq)
      rw [hnone]
      rfl
    · have hka : ¬ k = a := fun hk => hak hk.symm
      rw [lastVal_cons, if_neg hak, lookup_cons', if_neg hka, ih hrest]
      cases List.lookup k rest <;> simp [Option.or]

theorem lookup_mkEntry (s : ℕ) (c : String) (v : PyVal) (row : Record)
    (k : String) :
    List.lookup k (mkEntry s c v row) =
      (lastVal k row).or
        (lastVal k [("match_score", PyVal.num (s : ℚ)),
          ("matched_on", PyVal.str c), ("matched_value", v)]) := by
  unfold mkEntry
  rw [lookup_dictOfPairs, lastVal_append]

theorem lookup_mkEntry_of_lastVal (s : ℕ) (c : String) (v : PyVal)
    (row : Record) (k : String) (w : PyVal) (h : lastVal k row = some w) :
    List.lookup k (mkEntry s c v row) = some w := by
  rw [lookup_mkEntry, h]
  rfl

theorem lookup_mkEntry_title (s : ℕ) (c : String) (v : PyVal) (row : Record) :
    List.lookup "title" (mkEntry s c v row) = lastVal "title" row := by
  rw [lookup_mkEntry]
  have hannot : lastVal "title" [("match_score", PyVal.num (s : ℚ)),
      ("matched_on", PyVal.str c), ("matched_value", v)] = none := by
    apply lastVal_of_keys_ne
    intro p hp
    simp only [List.mem_cons, List.not_mem_nil, or_false] at hp
    rcases hp with h | h | h
    · subst h
      exact (by decide : "match_score" ≠ ("title" : String))
    · subst h
      exact (by decide : "matched_on" ≠ ("title" : String))
    · subst h
      exact (by decide : "matched_value" ≠ ("title" : String))
  rw [hannot]
  cases lastVal "title" row <;> simp [Option.or]

theorem lookup_mkEntry_matched_on (s : ℕ) (c : String) (v : PyVal)
    (row : Record) (h : lastVal "matched_on" row = none) :
    List.lookup "matched_on" (mkEntry s c v row) = some (PyVal.str c) := by
  rw [lookup_mkEntry, h]
  rfl

theorem cleanKeys_lastVal_matched_on (row : Record)
    (h : cleanKeys row = true) : lastVal "matched_on" row = none := by
  apply lastVal_of_keys_ne
  intro p hp
  unfold cleanKeys at h
  rw [List.all_eq_true] at h
  have := h p hp
  simp only [Bool.and_eq_true, bne_iff_ne, ne_eq] at this
  exact this.1.2

/-! ## Structure of the scan -/

theorem forall₂_filterMap {α β : Type} (f : α → Option β) :
    ∀ {sub : List α} {ms : List β},
      List.Forall₂ (fun a b => f a = some b) sub ms → sub.filterMap f = ms := by
  intro sub ms h
  induction h with
  | nil => rfl
  | cons hab _ ih => simp [List.filterMap_cons, hab, ih]

theorem rowEntry_of_firstClear (tsr prr : Scorer) (ql : String) (th : ℕ)
    (row : Record) (col : String) (v : PyVal) (s : ℕ)
    (h : firstClear tsr prr ql th row = some (col, v, s)) :
    rowEntry tsr prr ql th row = some (mkEntry s col v row) := by
  rw [rowEntry, h]
  rfl

theorem scanRows_ok_structure (tsr prr : Scorer) (ql : String) (th : ℕ) :
    ∀ (rows : List Record) (ms out : List (List (String × PyVal))),
      scanRows tsr prr ql th ms rows = .ok out →
      ∃ sub t, List.Sublist sub rows ∧
        List.Forall₂ (fun row e => rowEntry tsr prr ql th row = some e)
          sub t ∧
        out = ms ++ t := by
  intro rows
  induction rows with
  | nil =>
    intro ms out h
    simp only [scanRows, Except.ok.injEq] at h
    exact ⟨[], [], List.Sublist.refl [], List.Forall₂.nil, by simp [h]⟩
  | cons row rest ih =>
    intro ms out h
    rw [scanRows] at h
    cases hfc : firstClear tsr prr ql th row with
    | none =>
      rw [hfc] at h
      obtain ⟨sub, t, hsub, hf, hout⟩ := ih ms out h
      exact ⟨sub, t, hsub.cons row, hf, hout⟩
    | some p =>
      obtain ⟨col, v, s⟩ := p
      rw [hfc] at h
      cases hdc : dupCheck ms row with
      | error e =>
        rw [hdc] at h
        simp at h
      | ok dup =>
        rw [hdc] at h
        simp only at h
        cases dup with
        | true =>
          simp only [if_pos rfl] at h
          obtain ⟨sub, t, hsub, hf, hout⟩ := ih ms out h
          exact ⟨sub, t, hsub.cons row, hf, hout⟩
        | false =>
          simp only [Bool.false_eq_true, if_neg] at h
          obtain ⟨sub, t, hsub, hf, hout⟩ :=
            ih (ms ++ [mkEntry s col v row]) out h
          refine ⟨row :: sub, mkEntry s col v row :: t, hsub.cons₂ row,
            List.Forall₂.cons ?_ hf, ?_⟩
          · exact rowEntry_of_firstClear tsr prr ql th row col v s hfc
          · simp [hout]

theorem firstClear_mono (tsr prr : Scorer) (ql : String) (t1 t2 : ℕ)
    (hle : t1 ≤ t2) :
    ∀ row : Record, (firstClear tsr prr ql t2 row).isSome →
      (firstClear tsr prr ql t1 row).isSome := by
  intro row
  induction row with
  | nil => simp [firstClear]
  | cons p rest ih =>
    obtain ⟨col, v⟩ := p
    by_cases hskip : skipCell v = true
    · simp only [firstClear, if_pos hskip]
      exact ih
    · simp only [firstClear, if_neg hskip]
      by_cases h2 : t2 ≤ fieldSim tsr prr ql v
      · intro _
        rw [if_pos (le_trans hle h2)]
        rfl
      · rw [if_neg h2]
        intro hsome
        by_cases h1 : t1 ≤ fieldSim tsr prr ql v
        · rw [if_pos h1]
          rfl
        · rw [if_neg h1]
          exact ih hsome

theorem dupCheck_ok_false (ms : List (List (String × PyVal))) (row : Record)
    (t : PyVal) (ht : List.lookup "title" row = some t)
    (hm : ∀ m ∈ ms, pyEqO (List.lookup "title" m) t = false) :
    dupCheck ms row = .ok false := by
  cases ms with
  | nil => rfl
  | cons m ms' =>
    have hany :
        ((m :: ms').any fun m => pyEqO (List.lookup "title" m) t) = false := by
      rw [List.any_eq_false]
      intro x hx
      simp [hm x hx]
    simp only [dupCheck, ht, hany]

theorem scanRows_no_dedup (tsr prr : Scorer) (ql : String) (th : ℕ) :
    ∀ (rows : List Record) (ms : List (List (String × PyVal))),
      (∀ row ∈ rows, (List.lookup "title" row).isSome) →
      (∀ row ∈ rows, (row.map Prod.fst).Nodup) →
      List.Pairwise (fun r r' => titleClash r r' = false) rows →
      (∀ m ∈ ms, ∀ row ∈ rows, ∀ t, List.lookup "title" row = some t →
        pyEqO (List.lookup "title" m) t = false) →
      scanRows tsr prr ql th ms rows =
        .ok (ms ++ rows.filterMap (rowEntry tsr prr ql th)) := by
  intro rows
  induction rows with
  | nil =>
    intro ms _ _ _ _
    simp [scanRows]
  | cons row rest ih =>
    intro ms hT hN hP hM
    have hTrow : (List.lookup "title" row).isSome := hT row (by simp)
    obtain ⟨t, ht⟩ := Option.isSome_iff_exists.mp hTrow
    have hTrest : ∀ r ∈ rest, (List.lookup "title" r).isSome :=
      fun r hr => hT r (by simp [hr])
    have hNrest : ∀ r ∈ rest, (r.map Prod.fst).Nodup :=
      fun r hr => hN r (by simp [hr])
    have hProw : ∀ r' ∈ rest, titleClash row r' = false :=
      (List.pairwise_cons.mp hP).1
    have hPrest : List.Pairwise (fun r r' => titleClash r r' = false) rest :=
      (List.pairwise_cons.mp hP).2
    rw [scanRows]
    cases hfc : firstClear tsr prr ql th row with
    | none =>
      have hre : rowEntry tsr prr ql th row = none := by
        rw [rowEntry, hfc]
        rfl
      rw [List.filterMap_cons, hre]
      exact ih ms hTrest hNrest hPrest
        (fun m hm r hr t' ht' => hM m hm r (by simp [hr]) t' ht')
    | some p =>
      obtain ⟨col, v, s⟩ := p
      have hdc : dupCheck ms row = .ok false := by
        apply dupCheck_ok_false ms row t ht
        intro m hm
        exact hM m hm row (by simp) t ht
      rw [hdc]
      simp only [Bool.false_eq_true, if_false]
      have hre : rowEntry tsr prr ql th row = some (mkEntry s col v row) :=
        rowEntry_of_firstClear tsr prr ql th row col v s hfc
      rw [List.filterMap_cons, hre]
      have hEntryTitle :
          List.lookup "title" (mkEntry s col v row) = some t := by
        rw [lookup_mkEntry_title, lastVal_of_nodup _ _ (hN row (by simp)), ht]
      rw [ih (ms ++ [mkEntry s col v row]) hTrest hNrest hPrest ?_]
      · simp
      · intro m hm r hr t' ht'
        rcases List.mem_append.mp hm with hm | hm
        · exact hM m hm r (by simp [hr]) t' ht'
        · have hmeq : m = mkEntry s col v row := by
            simpa using hm
          subst hmeq
          rw [hEntryTitle]
          have := hProw r hr
          unfold titleClash at this
          rw [ht, ht'] at this
          exact this

theorem scanRows_no_clear (tsr prr : Scorer) (ql : String) (th : ℕ) :
    ∀ (rows : List Record) (ms : List (List (String × PyVal))),
      (∀ row ∈ rows, firstClear tsr prr ql th row = none) →
      scanRows tsr prr ql th ms rows = .ok ms := by
  intro rows
  induction rows with
  | nil => intro ms _; rfl
  | cons row rest ih =>
    intro ms h
    rw [scanRows, h row (by simp)]
    exact ih ms (fun r hr => h r (by simp [hr]))

theorem plan_of_ne_empty (tsr prr : Scorer) (ts sf q : String)
    (rows : List Record) (th : ℕ) (hq : q ≠ "") :
    plan tsr prr ts sf q rows th =
      match scanRows tsr prr (pyLower q) th [] rows with
      | .error e => .error e
      | .ok ms =>
        .ok (.report
          { agent := "ArchiveSearchAgent"
            input := q
            output := if ms.isEmpty then .noMatches else .matches ms
            timestamp := ts
            sourceFile := sf }) := by
  unfold plan
  rw [if_neg hq]

theorem outputMatches_ite (ms : List (List (String × PyVal))) :
    outputMatches (if ms.isEmpty then .noMatches else .matches ms) = ms := by
  cases ms <;> simp [outputMatches]

theorem plan_ok_report (tsr prr : Scorer) (ts sf q : String)
    (rows : List Record) (th : ℕ) (r : Report)
    (h : plan tsr prr ts sf q rows th = .ok (.report r)) :
    scanRows tsr prr (pyLower q) th [] rows = .ok (outputMatches r.output) := by
  by_cases hq : q = ""
  · subst hq
    simp only [plan, if_pos rfl, Except.ok.injEq] at h
    cases h
  · rw [plan_of_ne_empty tsr prr ts sf q rows th hq] at h
    cases hscan : scanRows tsr prr (pyLower q) th [] rows with
    | error e =>
      rw [hscan] at h
      simp at h
    | ok ms =>
      rw [hscan] at h
      simp only [Except.ok.injEq, PlanOut.report.injEq] at h
      subst h
      cases ms with
      | nil => simp [outputMatches, hscan]
      | cons a l => simp [outputMatches, hscan]

theorem matchesOfPlan_of_scan (tsr prr : Scorer) (ts sf q : String)
    (rows : List Record) (th : ℕ) (ms : List (List (String × PyVal)))
    (hq : q ≠ "") (hscan : scanRows tsr prr (pyLower q) th [] rows = .ok ms) :
    matchesOfPlan (plan tsr prr ts sf q rows th) = ms := by
  rw [plan_of_ne_empty tsr prr ts sf q rows th hq, hscan]
  cases ms <;> simp [matchesOfPlan]

theorem noTitleClashes_pairwise (rows : List Record)
    (h : noTitleClashes rows = true) :
    List.Pairwise (fun r r' => titleClash r r' = false) rows := by
  induction rows with
  | nil => exact List.Pairwise.nil
  | cons row rest ih =>
    unfold noTitleClashes at h
    rw [Bool.and_eq_true, List.all_eq_true] at h
    refine List.pairwise_cons.mpr ⟨fun r' hr' => ?_, ih h.2⟩
    have := h.1 r' hr'
    revert this
    cases titleClash row r' <;> simp

theorem rowsOK_titles (rows : List Record) (h : rowsOK rows = true) :
    ∀ r ∈ rows, (List.lookup "title" r).isSome := by
  unfold rowsOK at h
  rw [Bool.and_eq_true, Bool.and_eq_true, List.all_eq_true] at h
  exact h.1.1

theorem rowsOK_nodup (rows : List Record) (h : rowsOK rows = true) :
    ∀ r ∈ rows, (r.map Prod.fst).Nodup := by
  unfold rowsOK at h
  rw [Bool.and_eq_true, Bool.and_eq_true] at h
  intro r hr
  have := List.all_eq_true.mp h.1.2 r hr
  have hlen : (r.map Prod.fst).dedup.length = (r.map Prod.fst).length :=
    of_decide_eq_true this
  have heq := (List.dedup_sublist (r.map Prod.fst)).eq_of_length hlen
  rw [← heq]
  exact List.nodup_dedup (r.map Prod.fst)

theorem rowsOK_pairwise (rows : List Record) (h : rowsOK rows = true) :
    List.Pairwise (fun r r' => titleClash r r' = false) rows := by
  unfold rowsOK at h
  rw [Bool.and_eq_true, Bool.and_eq_true] at h
  exact noTitleClashes_pairwise rows h.2

theorem forall₂_mem_left {α β : Type} {R : α → β → Prop} :
    ∀ {l1 : List α} {l2 : List β}, List.Forall₂ R l1 l2 →
      ∀ a ∈ l1, ∃ b ∈ l2, R a b := by
  intro l1 l2 h
  induction h with
  | nil => simp
  | cons hab _ ih =>
    intro a ha
    rcases List.mem_cons.mp ha with ha | ha
    · subst ha
      exact ⟨_, by simp, hab⟩
    · obtain ⟨b, hb, hR⟩ := ih a ha
      exact ⟨b, by simp [hb], hR⟩

theorem pyLower_empty_iff (q : String) : pyLower q = "" ↔ q = "" := by
  constructor
  · intro h
    have hdata : q.data.map Char.toLower = [] := congrArg String.data h
    have : q.data = [] := List.map_eq_nil_iff.mp hdata
    exact String.ext this
  · intro h
    subst h
    rfl

theorem rowEntry_isNone_firstClear (tsr prr : Scorer) (ql : String) (th : ℕ)
    (row : Record) (h : (rowEntry tsr prr ql th row).isNone = true) :
    firstClear tsr prr ql th row = none := by
  unfold rowEntry at h
  cases hfc : firstClear tsr prr ql th row with
  | none => rfl
  | some p =>
    rw [hfc] at h
    simp at h

/-! ## The claims -/

/-- C1 (amended): for thresholds `t1 < t2`, provided every row has a
`title` column with unique keys and pairwise distinct (Python-`==`) title
values, every `title` reported by `plan` at threshold `t2` is also
reported at threshold `t1`: raising the threshold never makes a row match
that did not match before.  (As stated over raw `MatchResult` sets, and
over datasets with duplicated titles, the claim is false: see the
counterexample.) -/
theorem claim1_threshold_subset (tsr prr : Scorer) (ts sf q : String)
    (rows : List Record) (t1 t2 : ℕ) (hlt : t1 < t2)
    (hok : rowsOK rows = true) :
    ∀ v ∈ titlesOfPlan (plan tsr prr ts sf q rows t2),
      v ∈ titlesOfPlan (plan tsr prr ts sf q rows t1) := by
  intro v hv
  by_cases hq : q = ""
  · subst hq
    simp [titlesOfPlan, matchesOfPlan, plan] at hv
  · have hT := rowsOK_titles rows hok
    have hN := rowsOK_nodup rows hok
    have hP := rowsOK_pairwise rows hok
    have hscan2 := scanRows_no_dedup tsr prr (pyLower q) t2 rows [] hT hN hP
      (by simp)
    have hscan1 := scanRows_no_dedup tsr prr (pyLower q) t1 rows [] hT hN hP
      (by simp)
    rw [List.nil_append] at hscan2 hscan1
    unfold titlesOfPlan at hv ⊢
    rw [matchesOfPlan_of_scan tsr prr ts sf q rows t2 _ hq hscan2] at hv
    rw [matchesOfPlan_of_scan tsr prr ts sf q rows t1 _ hq hscan1]
    obtain ⟨m, hm, hlook⟩ := List.mem_filterMap.mp hv
    obtain ⟨row, hrow, hre⟩ := List.mem_filterMap.mp hm
    unfold rowEntry at hre
    obtain ⟨p2, hfc2, hmk⟩ := Option.map_eq_some'.mp hre
    obtain ⟨c2, v2, s2⟩ := p2
    have htitle : List.lookup "title" row = some v := by
      rw [← hmk] at hlook
      rw [lookup_mkEntry_title, lastVal_of_nodup _ _ (hN row hrow)] at hlook
      exact hlook
    have hsome1 : (firstClear tsr prr (pyLower q) t1 row).isSome :=
      firstClear_mono tsr prr (pyLower q) t1 t2 (le_of_lt hlt) row
        (by rw [hfc2]; rfl)
    obtain ⟨p1, hfc1⟩ := Option.isSome_iff_exists.mp hsome1
    obtain ⟨c1, v1, s1⟩ := p1
    refine List.mem_filterMap.mpr ⟨mkEntry s1 c1 v1 row, ?_, ?_⟩
    · refine List.mem_filterMap.mpr ⟨row, hrow, ?_⟩
      exact rowEntry_of_firstClear tsr prr (pyLower q) t1 row c1 v1 s1 hfc1
    · rw [lookup_mkEntry_title, lastVal_of_nodup _ _ (hN row hrow)]
      exact htitle

/-- C1 witness: a dataset satisfying the hypotheses, on which the title
matched at threshold 90 is also matched at threshold 50. -/
theorem claim1_witness :
    PyVal.str "wone" ∈ titlesOfPlan (plan modelTokenSet modelPart "TS" "SF"
      "wone" [[("title", PyVal.str "wone")]] 50) :=
  claim1_threshold_subset modelTokenSet modelPart "TS" "SF" "wone"
    [[("title", PyVal.str "wone")]] 50 90 (by decide) (by decide)
    (PyVal.str "wone") (by decide)

/-- C1 counterexample: with two rows sharing the title `"x"`, at threshold
50 only the first row's entry is kept (the second is deduplicated away),
while at threshold 90 only the second row matches, so the threshold-90
result set is not a subset of the threshold-50 result set. -/
theorem claim1_counterexample :
    listSubsetB
      (matchesOfPlan (plan modelTokenSet modelPart "T" "F" "alpha beta"
        [[("title", PyVal.str "x"), ("body", PyVal.str "beta gamma")],
         [("title", PyVal.str "x"), ("body", PyVal.str "alpha beta")]] 90))
      (matchesOfPlan (plan modelTokenSet modelPart "T" "F" "alpha beta"
        [[("title", PyVal.str "x"), ("body", PyVal.str "beta gamma")],
         [("title", PyVal.str "x"), ("body", PyVal.str "alpha beta")]] 50)) =
      false := by
  decide

/-- C2 (amended): only an empty `document_text` (Python-falsy) triggers the
early `{"error": "No document_text provided."}` return; whitespace-only
queries are not special-cased.  For the empty query no scoring happens and
no exception is raised, for any dataset and threshold. -/
theorem claim2_empty_query (tsr prr : Scorer) (ts sf : String)
    (rows : List Record) (th : ℕ) :
    plan tsr prr ts sf "" rows th =
      .ok (.errorReport "No document_text provided.") :=
  rfl

/-- C2 counterexample: the whitespace-only query `"  "` is truthy in
Python, so `plan` does not return the no-query report; it scores the
dataset normally and here even produces a match (the two-space query is a
substring of the cell `"x  y"`). -/
theorem claim2_counterexample :
    plan modelTokenSet modelPart "T" "F" "  "
        [[("title", PyVal.str "x  y")]] 60 ≠
      .ok (.errorReport "No document_text provided.") ∧
    plan modelTokenSet modelPart "T" "F" "  "
        [[("title", PyVal.str "x  y")]] 60 =
      .ok (.report
        { agent := "ArchiveSearchAgent"
          input := "  "
          output := .matches
            [mkEntry 100 "title" (PyVal.str "x  y")
              [("title", PyVal.str "x  y")]]
          timestamp := "T"
          sourceFile := "F" }) := by
  constructor
  · decide
  · rfl

/-- C3: evaluating `plan` at a dataset whose rows lack a `title` column
raises `KeyError('title')` as soon as a second matching row is checked
against the accumulated matches — a per-record condition that the claim
(and spec sections 7 and 9) says must not raise. -/
theorem claim3_keyerror_title :
    plan modelTokenSet modelPart "T" "F" "hello"
        [[("a", PyVal.str "hello")], [("a", PyVal.str "hello")]] 60 =
      .error .keyErrorTitle :=
  rfl

/-- C4 (amended): every row of the dataset contributes at most one match
entry (the entries correspond, in order, to a subsequence of the rows),
and — provided the row itself has none of the keys `match_score`,
`matched_on`, `matched_value` — the entry's `matched_on` value is the name
of the first field in the row's field order whose similarity cleared the
threshold (not necessarily the highest-scoring field).  When the row does
carry such a key its own cell value overrides the annotation (see C10),
which is what forces the `cleanKeys` proviso. -/
theorem claim4_first_field (tsr prr : Scorer) (ts sf q : String)
    (rows : List Record) (th : ℕ) (r : Report)
    (h : plan tsr prr ts sf q rows th = .ok (.report r)) :
    ∃ sub, List.Sublist sub rows ∧
      List.Forall₂ (fun row e =>
          rowEntry tsr prr (pyLower q) th row = some e ∧
          (cleanKeys row = true →
            ∀ col v s, firstClear tsr prr (pyLower q) th row = some (col, v, s) →
              List.lookup "matched_on" e = some (PyVal.str col)))
        sub (outputMatches r.output) := by
  have hscan := plan_ok_report tsr prr ts sf q rows th r h
  obtain ⟨sub, t, hsub, hf, hout⟩ :=
    scanRows_ok_structure tsr prr (pyLower q) th rows [] (outputMatches r.output)
      hscan
  rw [List.nil_append] at hout
  subst hout
  refine ⟨sub, hsub, ?_⟩
  refine List.Forall₂.imp ?_ hf
  intro row e hre
  refine ⟨hre, fun hclean col v s hfc => ?_⟩
  have hemk : e = mkEntry s col v row := by
    rw [rowEntry, hfc] at hre
    exact (Option.some.injEq _ _ ▸ hre).symm
  subst hemk
  exact lookup_mkEntry_matched_on s col v row
    (cleanKeys_lastVal_matched_on row hclean)

/-- C4 witness: a one-row dataset with clean keys; the single entry's
`matched_on` is the first clearing field `"note"`. -/
theorem claim4_witness :
    ∃ sub, List.Sublist sub
        [[("title", PyVal.str "cards"), ("note", PyVal.str "greetings")]] ∧
      List.Forall₂ (fun row e =>
          rowEntry modelTokenSet modelPart (pyLower "greetings") 60 row =
            some e ∧
          (cleanKeys row = true →
            ∀ col v s,
              firstClear modelTokenSet modelPart (pyLower "greetings") 60 row =
                some (col, v, s) →
              List.lookup "matched_on" e = some (PyVal.str col)))
        sub
        (outputMatches (PlanOutput.matches
          [mkEntry 100 "note" (PyVal.str "greetings")
            [("title", PyVal.str "cards"), ("note", PyVal.str "greetings")]])) :=
  claim4_first_field modelTokenSet modelPart "TS" "SF" "greetings"
    [[("title", PyVal.str "cards"), ("note", PyVal.str "greetings")]] 60
    { agent := "ArchiveSearchAgent"
      input := "greetings"
      output := PlanOutput.matches
        [mkEntry 100 "note" (PyVal.str "greetings")
          [("title", PyVal.str "cards"), ("note", PyVal.str "greetings")]]
      timestamp := "TS"
      sourceFile := "SF" }
    rfl

/-- C4 counterexample: a matching record with its own `matched_on` field.
The first field to clear the threshold is `"body"`, but the produced entry
reports `matched_on = "zzz"` (the record's own value), not `"body"`. -/
theorem claim4_counterexample :
    matchesOfPlan (plan modelTokenSet modelPart "T" "F" "hullo"
        [[("matched_on", PyVal.str "zzz"), ("body", PyVal.str "hullo"),
          ("title", PyVal.str "t")]] 60) =
      [mkEntry 100 "body" (PyVal.str "hullo")
        [("matched_on", PyVal.str "zzz"), ("body", PyVal.str "hullo"),
         ("title", PyVal.str "t")]] ∧
    firstClear modelTokenSet modelPart (pyLower "hullo") 60
        [("matched_on", PyVal.str "zzz"), ("body", PyVal.str "hullo"),
         ("title", PyVal.str "t")] =
      some ("body", PyVal.str "hullo", 100) ∧
    List.lookup "matched_on"
        (mkEntry 100 "body" (PyVal.str "hullo")
          [("matched_on", PyVal.str "zzz"), ("body", PyVal.str "hullo"),
           ("title", PyVal.str "t")]) =
      some (PyVal.str "zzz") ∧
    PyVal.str "zzz" ≠ PyVal.str "body" := by
  refine ⟨rfl, rfl, rfl, ?_⟩
  decide

/-- C5: the sequence of match entries returned by `plan` is the image of a
subsequence of the dataset's rows, taken in original row order (entries
are appended in scan order and never sorted by score); every row of that
subsequence is a matching row. -/
theorem claim5_row_order (tsr prr : Scorer) (ts sf q : String)
    (rows : List Record) (th : ℕ) (r : Report)
    (h : plan tsr prr ts sf q rows th = .ok (.report r)) :
    ∃ sub, List.Sublist sub rows ∧
      (∀ row ∈ sub, (rowEntry tsr prr (pyLower q) th row).isSome) ∧
      outputMatches r.output =
        sub.filterMap (rowEntry tsr prr (pyLower q) th) := by
  have hscan := plan_ok_report tsr prr ts sf q rows th r h
  obtain ⟨sub, t, hsub, hf, hout⟩ :=
    scanRows_ok_structure tsr prr (pyLower q) th rows []
      (outputMatches r.output) hscan
  rw [List.nil_append] at hout
  subst hout
  refine ⟨sub, hsub, ?_, (forall₂_filterMap _ hf).symm⟩
  intro row hrow
  obtain ⟨e, _, hre⟩ := forall₂_mem_left hf row hrow
  rw [hre]
  rfl

/-- C5 witness: the two-row dataset of the spec's concrete scenario; the
output is exactly the first row's entry, in row order. -/
theorem claim5_witness :
    ∃ sub, List.Sublist sub
        [[("title", PyVal.str "Bitcoin Basics"),
          ("body", PyVal.str "intro to BTC")],
         [("title", PyVal.str "Weather Patterns"),
          ("body", PyVal.str "rain and wind")]] ∧
      (∀ row ∈ sub,
        (rowEntry modelTokenSet modelPart (pyLower "bitcoin") 60 row).isSome) ∧
      outputMatches (PlanOutput.matches
          [mkEntry 100 "title" (PyVal.str "Bitcoin Basics")
            [("title", PyVal.str "Bitcoin Basics"),
             ("body", PyVal.str "intro to BTC")]]) =
        List.filterMap (rowEntry modelTokenSet modelPart (pyLower "bitcoin") 60)
          sub :=
  claim5_row_order modelTokenSet modelPart "TS" "SF" "bitcoin"
    [[("title", PyVal.str "Bitcoin Basics"),
      ("body", PyVal.str "intro to BTC")],
     [("title", PyVal.str "Weather Patterns"),
      ("body", PyVal.str "rain and wind")]] 60
    { agent := "ArchiveSearchAgent"
      input := "bitcoin"
      output := PlanOutput.matches
        [mkEntry 100 "title" (PyVal.str "Bitcoin Basics")
          [("title", PyVal.str "Bitcoin Basics"),
           ("body", PyVal.str "intro to BTC")]]
      timestamp := "TS"
      sourceFile := "SF" }
    rfl

/-- C6: for a non-empty query and a non-skipped cell, the field's score is
the maximum of the token-set similarity and the partial similarity of the
lowercased strings, and the field matches exactly when that maximum is
greater than or equal to the threshold (inclusive comparison): at
`score ≥ th` the entry (carrying that score) is produced, at `score < th`
the report is the "No matches found." marker. -/
theorem claim6_max_and_inclusive_threshold (tsr prr : Scorer)
    (ts sf q c : String) (v : PyVal) (th : ℕ)
    (hq : q ≠ "") (hv : skipCell v = false) :
    (th ≤ max (tsr (pyLower q) (pyLower (pyStr v)))
        (prr (pyLower q) (pyLower (pyStr v))) →
      plan tsr prr ts sf q [[(c, v)]] th =
        .ok (.report
          { agent := "ArchiveSearchAgent"
            input := q
            output := .matches
              [mkEntry (max (tsr (pyLower q) (pyLower (pyStr v)))
                  (prr (pyLower q) (pyLower (pyStr v)))) c v [(c, v)]]
            timestamp := ts
            sourceFile := sf })) ∧
    (max (tsr (pyLower q) (pyLower (pyStr v)))
        (prr (pyLower q) (pyLower (pyStr v))) < th →
      plan tsr prr ts sf q [[(c, v)]] th =
        .ok (.report
          { agent := "ArchiveSearchAgent"
            input := q
            output := .noMatches
            timestamp := ts
            sourceFile := sf })) := by
  constructor
  · intro hle
    have hle' : th ≤ fieldSim tsr prr (pyLower q) v := hle
    have hfc : firstClear tsr prr (pyLower q) th [(c, v)] =
        some (c, v, fieldSim tsr prr (pyLower q) v) := by
      simp only [firstClear, hv, Bool.false_eq_true, if_false, if_pos hle']
    rw [plan_of_ne_empty tsr prr ts sf q [[(c, v)]] th hq]
    rw [scanRows, hfc]
    have hdc : dupCheck [] [(c, v)] = .ok false := rfl
    rw [hdc]
    simp only [Bool.false_eq_true, if_false, List.nil_append, scanRows]
    rfl
  · intro hlt
    have hlt' : ¬ th ≤ fieldSim tsr prr (pyLower q) v := not_le_of_lt hlt
    have hfc : firstClear tsr prr (pyLower q) th [(c, v)] = none := by
      simp only [firstClear, hv, Bool.false_eq_true, if_false, if_neg hlt']
    rw [plan_of_ne_empty tsr prr ts sf q [[(c, v)]] th hq]
    rw [scanRows, hfc, scanRows]
    rfl

/-- C6 witness: scoring `"paris"` against the cell `"Paris France"` with
the model scorers: the maximum of the two similarities is 100, which
clears the (inclusive) threshold 60 and appears as the entry's score. -/
theorem claim6_witness :
    plan modelTokenSet modelPart "TS" "SF" "paris"
        [[("city", PyVal.str "Paris France")]] 60 =
      .ok (.report
        { agent := "ArchiveSearchAgent"
          input := "paris"
          output := .matches
            [mkEntry (max (modelTokenSet (pyLower "paris")
                (pyLower (pyStr (PyVal.str "Paris France"))))
                (modelPart (pyLower "paris")
                  (pyLower (pyStr (PyVal.str "Paris France")))))
              "city" (PyVal.str "Paris France")
              [("city", PyVal.str "Paris France")]]
          timestamp := "TS"
          sourceFile := "SF" }) :=
  (claim6_max_and_inclusive_threshold modelTokenSet modelPart "TS" "SF"
    "paris" "city" (PyVal.str "Paris France") 60 (by decide) (by decide)).1
    (by decide)

/-- C7: for a non-empty query, whenever no row clears the threshold — the
empty dataset included — `plan` succeeds with the "No matches found."
marker (the empty match sequence), not an error. -/
theorem claim7_no_matches_marker (tsr prr : Scorer) (ts sf q : String)
    (rows : List Record) (th : ℕ) (hq : q ≠ "")
    (hnone : rows.all
      (fun row => (rowEntry tsr prr (pyLower q) th row).isNone) = true) :
    plan tsr prr ts sf q rows th =
      .ok (.report
        { agent := "ArchiveSearchAgent"
          input := q
          output := .noMatches
          timestamp := ts
          sourceFile := sf }) := by
  have hfc : ∀ row ∈ rows, firstClear tsr prr (pyLower q) th row = none := by
    intro row hrow
    exact rowEntry_isNone_firstClear tsr prr (pyLower q) th row
      (List.all_eq_true.mp hnone row hrow)
  rw [plan_of_ne_empty tsr prr ts sf q rows th hq,
    scanRows_no_clear tsr prr (pyLower q) th rows [] hfc]
  rfl

/-- C7 witness: the empty dataset at query `"bitcoin"`. -/
theorem claim7_witness :
    plan modelTokenSet modelPart "TS" "SF" "bitcoin" [] 60 =
      .ok (.report
        { agent := "ArchiveSearchAgent"
          input := "bitcoin"
          output := .noMatches
          timestamp := "TS"
          sourceFile := "SF" }) :=
  claim7_no_matches_marker modelTokenSet modelPart "TS" "SF" "bitcoin" [] 60
    (by decide) (by decide)

/-- C8: two queries with the same lowercasing (in particular, queries
differing only in letter case) produce identical `plan` results except for
the verbatim `input` echo of the query, for every dataset and threshold:
same entries, same scores, same matched rows. -/
theorem claim8_case_insensitive (tsr prr : Scorer) (ts sf q1 q2 : String)
    (rows : List Record) (th : ℕ) (h : pyLower q1 = pyLower q2) :
    Except.map PlanOut.stripInput (plan tsr prr ts sf q1 rows th) =
      Except.map PlanOut.stripInput (plan tsr prr ts sf q2 rows th) := by
  by_cases hq1 : q1 = ""
  · have hq2 : q2 = "" := by
      subst hq1
      exact (pyLower_empty_iff q2).mp (h ▸ rfl)
    subst hq1
    subst hq2
    rfl
  · have hq2 : q2 ≠ "" := by
      intro hq2e
      subst hq2e
      exact hq1 ((pyLower_empty_iff q1).mp (h.trans rfl))
    rw [plan_of_ne_empty tsr prr ts sf q1 rows th hq1,
      plan_of_ne_empty tsr prr ts sf q2 rows th hq2, ← h]
    cases hscan : scanRows tsr prr (pyLower q1) th [] rows with
    | error e => rfl
    | ok ms => simp [Except.map, PlanOut.stripInput]

/-- C8 witness: `"PARIS"` and `"paris"` on a concrete dataset. -/
theorem claim8_witness :
    Except.map PlanOut.stripInput (plan modelTokenSet modelPart "TS" "SF"
        "PARIS" [[("title", PyVal.str "paris city")]] 60) =
      Except.map PlanOut.stripInput (plan modelTokenSet modelPart "TS" "SF"
        "paris" [[("title", PyVal.str "paris city")]] 60) :=
  claim8_case_insensitive modelTokenSet modelPart "TS" "SF" "PARIS" "paris"
    [[("title", PyVal.str "paris city")]] 60 (by decide)

/-- C9: `plan` is a pure function of its inputs — two calls with the same
query, dataset and threshold differ at most in the timestamp field:
rewriting the timestamp of the first call's result yields the second
call's result exactly. -/
theorem claim9_idempotent_modulo_timestamp (tsr prr : Scorer)
    (ts1 ts2 sf q : String) (rows : List Record) (th : ℕ) :
    plan tsr prr ts2 sf q rows th =
      Except.map (PlanOut.withTimestamp ts2)
        (plan tsr prr ts1 sf q rows th) := by
  by_cases hq : q = ""
  · subst hq
    rfl
  · rw [plan_of_ne_empty tsr prr ts2 sf q rows th hq,
      plan_of_ne_empty tsr prr ts1 sf q rows th hq]
    cases hscan : scanRows tsr prr (pyLower q) th [] rows with
    | error e => rfl
    | ok ms => simp [Except.map, PlanOut.withTimestamp]

/-- C10: when a matching record itself has a field named `match_score`,
`matched_on` or `matched_value`, the `**row.to_dict()` splat of lines
53-58 overwrites the annotation, so the produced entry reports the
record's own value under that key. -/
theorem claim10_row_overrides (s : ℕ) (c : String) (v : PyVal)
    (row : Record) (k : String) (w : PyVal)
    (_hk : k = "match_score" ∨ k = "matched_on" ∨ k = "matched_value")
    (hw : lastVal k row = some w) :
    List.lookup k (mkEntry s c v row) = some w :=
  lookup_mkEntry_of_lastVal s c v row k w hw

/-- C10 witness: a row carrying its own `match_score` cell `"OWN"`; the
entry reports `"OWN"`, not the computed score 77. -/
theorem claim10_witness :
    List.lookup "match_score"
        (mkEntry 77 "f" (PyVal.str "x") [("match_score", PyVal.str "OWN")]) =
      some (PyVal.str "OWN") :=
  claim10_row_overrides 77 "f" (PyVal.str "x")
    [("match_score", PyVal.str "OWN")] "match_score" (PyVal.str "OWN")
    (Or.inl rfl) (by decide)
